import Mathlib

/-!
A shallow embedding of `src/fsm.py` (`FiniteStateMachine`), together with
theorems checking the natural-language specification against it.

The Python source is Python 2 code (`map` is eager, `records[i]` indexing
works on the eager `map` result), so `run` applies `advance` eagerly to each
symbol and any exception raised by `advance` propagates out of `run`.
Python dictionaries are modelled as association lists with at most one entry
per key (`dictGet?` / `dictSet`); the `defaultdict(dict)` used for
`transitions` is modelled by `ddAccess`, which inserts an empty inner
dictionary when the accessed key is absent, exactly as `defaultdict.__getitem__`
does.  Python exceptions become an explicit error type: `IndexError` and the
unpacking `ValueError` keep their Python identity, and the three exception
classes of the source keep their names and payloads (each Python exception
carries a formatted message string).
-/

namespace FSM

/-- Decidable equality of `Except` values, so that concrete results of the
embedded operations can be evaluated by `decide`. -/
instance {ε α : Type} [DecidableEq ε] [DecidableEq α] : DecidableEq (Except ε α) :=
  fun x y =>
    match x, y with
    | .error a, .error b =>
      if h : a = b then isTrue (by rw [h]) else isFalse (fun hc => h (Except.error.inj hc))
    | .ok a, .ok b =>
      if h : a = b then isTrue (by rw [h]) else isFalse (fun hc => h (Except.ok.inj hc))
    | .error _, .ok _ => isFalse (fun hc => Except.noConfusion hc)
    | .ok _, .error _ => isFalse (fun hc => Except.noConfusion hc)

/-- The errors the source can raise: `IndexError` from row/field indexing,
`ValueError` from unpacking a transition row that does not have exactly three
fields, and the three exception classes defined at the bottom of `fsm.py`,
each carrying the message string the source passes to the constructor. -/
inductive Err where
  | indexError : Err
  | valueError : Err
  | stateError (states : String) : Err
  | symbolError (symbol : String) : Err
  | transitionError (transition : String) : Err
deriving DecidableEq

/-- Python `dict` lookup (`d.get(k)` / `d[k]`), on an association list with at
most one entry per key. -/
def dictGet? {α : Type} : List (String × α) → String → Option α
  | [], _ => none
  | (k1, v) :: rest, k => if k1 = k then some v else dictGet? rest k

/-- Python `dict` assignment `d[k] = v`: replaces the value of an existing key
in place, otherwise appends the new key at the end (insertion order). -/
def dictSet {α : Type} : List (String × α) → String → α → List (String × α)
  | [], k, v => [(k, v)]
  | (k1, v1) :: rest, k, v =>
    if k1 = k then (k, v) :: rest else (k1, v1) :: dictSet rest k v

/-- The `transitions` table: `defaultdict(dict)` mapping a from-state to an
inner `dict` from symbol to to-state. -/
abbrev Trans := List (String × List (String × String))

/-- `defaultdict.__getitem__`: returns the table (possibly extended with a
fresh empty inner dict for an absent key) together with the inner dict that
`self.transitions[from_state]` evaluates to. -/
def ddAccess (d : Trans) (k : String) : Trans × List (String × String) :=
  match dictGet? d k with
  | some inner => (d, inner)
  | none => (d ++ [(k, [])], [])

/-- The fields `parse` and `reset` install on a `FiniteStateMachine` instance.
The Python sets `states`, `symbols`, `terminals` are kept as the raw field
lists; only membership in them is ever consulted. -/
structure Machine where
  states : List String
  symbols : List String
  initial_state : String
  terminals : List String
  transitions : Trans
  current_state : String
deriving DecidableEq

/-- Python `records[i]` / `row[i]`: `IndexError` when out of range. -/
def getIndex {α : Type} : List α → Nat → Except Err α
  | [], _ => .error .indexError
  | x :: _, 0 => .ok x
  | _ :: xs, n + 1 => getIndex xs n

/-- Lexicographic comparison of character lists, by code point — the order
Python's `sorted` uses on strings. -/
def charListLe : List Char → List Char → Bool
  | [], _ => true
  | _ :: _, [] => false
  | a :: as, b :: bs => if a < b then true else if b < a then false else charListLe as bs

/-- Python's `<=` on strings: lexicographic by code point. -/
def strLe (a b : String) : Bool := charListLe a.toList b.toList

/-- Sorted insertion into a sorted list of strings (helper for `sorted`). -/
def insertSorted (x : String) : List String → List String
  | [] => [x]
  | y :: ys => if strLe x y then x :: y :: ys else y :: insertSorted x ys

/-- Python `sorted` on a list of strings (ascending insertion sort). -/
def sortStrings : List String → List String
  | [] => []
  | x :: xs => insertSorted x (sortStrings xs)

/-- `sorted(set([from_state, to_state]).difference(self.states))` from
`validate_transition`. -/
def invalidStates (states : List String) (from_state to_state : String) :
    List String :=
  sortStrings ((if from_state = to_state then [to_state]
                else [from_state, to_state]).filter
    (fun x => decide (x ∉ states)))

/-- `FiniteStateMachine.validate_transition`: raises `StateError` with the
comma-joined sorted list of offending states when the set difference is
non-empty. -/
def validate_transition (states : List String) (from_state to_state : String) :
    Option Err :=
  if invalidStates states from_state to_state = [] then none
  else some (.stateError
    (String.intercalate ", " (invalidStates states from_state to_state)))

/-- The transition-row loop of `FiniteStateMachine.parse`: unpacks each row
into exactly three fields (Python raises `ValueError` otherwise), validates
the two states, then performs `self.transitions[from_state][symbol] = to_state`
through the `defaultdict`. -/
def parseTransitions (states : List String) :
    Trans → List (List String) → Except Err Trans
  | d, [] => .ok d
  | d, row :: rest =>
    match row with
    | [from_state, symbol, to_state] =>
      match validate_transition states from_state to_state with
      | some e => .error e
      | none =>
        match ddAccess d from_state with
        | (d1, inner) =>
          parseTransitions states
            (dictSet d1 from_state (dictSet inner symbol to_state)) rest
    | _ => .error .valueError

/-- `FiniteStateMachine.parse` followed by the `reset` call of `__init__`:
reads `records[0]`, `records[1]`, `records[2][0]`, `records[3]` in source
order, then folds the transition rows `records[4:]`; `current_state` is the
initial state, as `reset` leaves it. -/
def parse (records : List (List String)) : Except Err Machine := do
  let r0 ← getIndex records 0
  let r1 ← getIndex records 1
  let r2 ← getIndex records 2
  let init ← getIndex r2 0
  let r3 ← getIndex records 3
  let trans ← parseTransitions r0 [] (records.drop 4)
  pure { states := r0, symbols := r1, initial_state := init,
         terminals := r3, transitions := trans, current_state := init }

/-- `FiniteStateMachine.reset`. -/
def reset (m : Machine) : Machine :=
  { m with current_state := m.initial_state }

/-- The string `'{f} -{s}-> {t}'.format(...)` built in `advance`; Python
formats `None` as the string `None`. -/
def formatTransition (from_state symbol : String) (to_state : Option String) :
    String :=
  from_state ++ " -" ++ symbol ++ "-> " ++
    (match to_state with
     | some t => t
     | none => "None")

/-- `FiniteStateMachine.advance`: rejects a symbol outside the alphabet with
`SymbolError` before anything else; otherwise accesses
`self.transitions[from_state]` through the `defaultdict` (which may insert an
empty inner dict), looks the symbol up with `.get`, and either moves to the
target state or raises `TransitionError` when the looked-up value is falsy
(`None` or the empty string). Returns the machine after the call together
with the raised error, if any. -/
def advance (m : Machine) (symbol : String) : Machine × Option Err :=
  if symbol ∉ m.symbols then
    (m, some (.symbolError symbol))
  else
    match dictGet? (ddAccess m.transitions m.current_state).2 symbol with
    | some t =>
      if t = "" then
        ({ m with transitions := (ddAccess m.transitions m.current_state).1 },
         some (.transitionError (formatTransition m.current_state symbol (some t))))
      else
        ({ m with transitions := (ddAccess m.transitions m.current_state).1,
                  current_state := t }, none)
    | none =>
      ({ m with transitions := (ddAccess m.transitions m.current_state).1 },
       some (.transitionError (formatTransition m.current_state symbol none)))

/-- The eager `map(self.advance, sequence)` of `run`: applies `advance` to
each symbol in order; the first raised error aborts the iteration and
propagates. -/
def runAux : Machine → List String → Machine × Option Err
  | m, [] => (m, none)
  | m, s :: rest =>
    match advance m s with
    | (m1, none) => runAux m1 rest
    | (m1, some e) => (m1, some e)

/-- `FiniteStateMachine.run`: resets, eagerly advances over the sequence, and
— when no exception was raised — computes `bool(current_state in terminals)`.
A raised exception propagates out of `run`, so no verdict is produced; the
machine keeps whatever mutations happened before the failure. -/
def run (m : Machine) (sequence : List String) : Machine × Except Err Bool :=
  match runAux (reset m) sequence with
  | (m1, none) => (m1, .ok (decide (m1.current_state ∈ m1.terminals)))
  | (m1, some e) => (m1, .error e)

/-- The characters of a Python string, as one-character strings (iterating a
`str` yields its characters). -/
def chars (s : String) : List String :=
  s.toList.map (fun c => String.mk [c])

/-- The transition table read as a partial function: the state the source's
`self.transitions[from_state].get(symbol)` evaluates to, ignoring the
`defaultdict` side effect. -/
def flatLookup (d : Trans) (st sy : String) : Option String :=
  match dictGet? d st with
  | some inner => dictGet? inner sy
  | none => none

/-- Stepwise application of the transition function, as the specification
words it: one step succeeds exactly when the symbol is in the alphabet and
the table maps the pair to a truthy (non-empty) state. Stated over an
abstract lookup function so it does not depend on the table representation. -/
def specStep (symbols : List String) (delta : String → String → Option String)
    (st sy : String) : Option String :=
  if sy ∈ symbols then
    match delta st sy with
    | some t => if t = "" then none else some t
    | none => none
  else none

/-- Step-by-step application of the transition function to a whole sequence,
from a given state. -/
def specSteps (symbols : List String)
    (delta : String → String → Option String) :
    String → List String → Option String
  | st, [] => some st
  | st, sy :: rest =>
    match specStep symbols delta st sy with
    | some t => specSteps symbols delta t rest
    | none => none

/-- The intermediate states of step-by-step transition application, one per
consumed symbol, stopping at the first undefined step. -/
def specTrace (symbols : List String)
    (delta : String → String → Option String) :
    String → List String → List String
  | _, [] => []
  | st, sy :: rest =>
    match specStep symbols delta st sy with
    | some t => t :: specTrace symbols delta t rest
    | none => []

/-- The states the machine visits during the eager iteration of `run`, one
per successfully consumed symbol. -/
def runTraceAux : Machine → List String → List String
  | _, [] => []
  | m, s :: rest =>
    match advance m s with
    | (m1, none) => m1.current_state :: runTraceAux m1 rest
    | (_, some _) => []

/-- The states `run` visits after its `reset`. -/
def runTrace (m : Machine) (sequence : List String) : List String :=
  runTraceAux (reset m) sequence

/-- The CSV rows of the worked example in the class docstring of `fsm.py`. -/
def exampleRecords : List (List String) :=
  [["A", "B", "C"], ["a", "b"], ["A"], ["A", "C"],
   ["A", "a", "A"], ["A", "b", "B"], ["B", "a", "C"],
   ["B", "b", "C"], ["C", "a", "C"], ["C", "b", "A"]]

/-- The machine the example rows construct. -/
def exampleMachine : Machine :=
  { states := ["A", "B", "C"], symbols := ["a", "b"], initial_state := "A",
    terminals := ["A", "C"],
    transitions := [("A", [("a", "A"), ("b", "B")]),
                    ("B", [("a", "C"), ("b", "C")]),
                    ("C", [("a", "C"), ("b", "A")])],
    current_state := "A" }

/-- A machine whose state `B` is reachable but has no row in the transition
table (so the `defaultdict` has no entry for it). -/
def growMachine : Machine :=
  { states := ["A", "B"], symbols := ["a"], initial_state := "A",
    terminals := [], transitions := [("A", [("a", "B")])],
    current_state := "A" }

/-- A machine whose table maps `(A, a)` to the declared state `""`. -/
def emptyTargetMachine : Machine :=
  { states := ["A", ""], symbols := ["a"], initial_state := "A",
    terminals := [], transitions := [("A", [("a", "")])],
    current_state := "A" }

theorem parse_exampleRecords : parse exampleRecords = .ok exampleMachine := rfl

theorem dictGet?_append {α : Type} (d l : List (String × α)) (k : String) :
    dictGet? (d ++ l) k =
      match dictGet? d k with
      | some v => some v
      | none => dictGet? l k := by
  induction d with
  | nil => rfl
  | cons p rest ih =>
    obtain ⟨k1, v⟩ := p
    by_cases h : k1 = k <;> simp [dictGet?, h, ih]

theorem ddAccess_fst_flatLookup (d : Trans) (k st sy : String) :
    flatLookup (ddAccess d k).1 st sy = flatLookup d st sy := by
  unfold ddAccess
  cases h : dictGet? d k with
  | some inner => rfl
  | none =>
    unfold flatLookup
    rw [dictGet?_append]
    cases h2 : dictGet? d st with
    | some i => rfl
    | none =>
      by_cases hk : k = st
      · subst hk
        simp [dictGet?]
      · simp [dictGet?, hk]

theorem ddAccess_snd (d : Trans) (k sy : String) :
    dictGet? (ddAccess d k).2 sy = flatLookup d k sy := by
  unfold ddAccess flatLookup
  cases h : dictGet? d k <;> rfl

theorem advance_eq (m : Machine) (s : String) :
    advance m s =
      if s ∉ m.symbols then (m, some (.symbolError s))
      else
        match flatLookup m.transitions m.current_state s with
        | some t =>
          if t = "" then
            ({ m with transitions := (ddAccess m.transitions m.current_state).1 },
             some (.transitionError (formatTransition m.current_state s (some t))))
          else
            ({ m with transitions := (ddAccess m.transitions m.current_state).1,
                      current_state := t }, none)
        | none =>
          ({ m with transitions := (ddAccess m.transitions m.current_state).1 },
           some (.transitionError (formatTransition m.current_state s none))) := by
  unfold advance
  rw [ddAccess_snd]

theorem advance_fields (m : Machine) (s : String) :
    (advance m s).1.states = m.states ∧ (advance m s).1.symbols = m.symbols ∧
    (advance m s).1.initial_state = m.initial_state ∧
    (advance m s).1.terminals = m.terminals := by
  rw [advance_eq]
  split
  · exact ⟨rfl, rfl, rfl, rfl⟩
  · split
    · split
      · exact ⟨rfl, rfl, rfl, rfl⟩
      · exact ⟨rfl, rfl, rfl, rfl⟩
    · exact ⟨rfl, rfl, rfl, rfl⟩

theorem advance_flatLookup (m : Machine) (s st sy : String) :
    flatLookup (advance m s).1.transitions st sy =
      flatLookup m.transitions st sy := by
  rw [advance_eq]
  split
  · rfl
  · split
    · split
      · exact ddAccess_fst_flatLookup m.transitions m.current_state st sy
      · exact ddAccess_fst_flatLookup m.transitions m.current_state st sy
    · exact ddAccess_fst_flatLookup m.transitions m.current_state st sy

theorem advance_flatLookup_funext (m : Machine) (s : String) :
    flatLookup (advance m s).1.transitions = flatLookup m.transitions :=
  funext fun st => funext fun sy => advance_flatLookup m s st sy

theorem advance_fail_current (m : Machine) (s : String) (e : Err)
    (h : (advance m s).2 = some e) :
    (advance m s).1.current_state = m.current_state := by
  rw [advance_eq] at h ⊢
  split
  · rfl
  · split
    · split
      · rfl
      · exfalso
        simp_all
    · rfl

theorem advance_notin_eq (m : Machine) (s : String) (h : s ∉ m.symbols) :
    advance m s = (m, some (.symbolError s)) := by
  rw [advance_eq, if_pos h]

theorem advance_of_specStep (m : Machine) (s t : String)
    (h : specStep m.symbols (flatLookup m.transitions) m.current_state s = some t) :
    (advance m s).2 = none ∧ (advance m s).1.current_state = t := by
  have hs : s ∈ m.symbols := by
    by_contra hs
    rw [specStep, if_neg hs] at h
    exact Option.noConfusion h
  rw [specStep, if_pos hs] at h
  cases heq : flatLookup m.transitions m.current_state s with
  | none =>
    rw [heq] at h
    simp at h
  | some u =>
    rw [heq] at h
    simp only [] at h
    split at h
    · exact Option.noConfusion h
    · next hu =>
      have hut : u = t := by simpa using h
      subst hut
      rw [advance_eq, if_neg (not_not_intro hs), heq]
      simp [hu]

theorem runAux_ok (seq : List String) : ∀ (m : Machine) (st : String),
    specSteps m.symbols (flatLookup m.transitions) m.current_state seq = some st →
    (runAux m seq).2 = none ∧ (runAux m seq).1.current_state = st ∧
    (runAux m seq).1.terminals = m.terminals ∧
    runTraceAux m seq =
      specTrace m.symbols (flatLookup m.transitions) m.current_state seq := by
  induction seq with
  | nil =>
    intro m st h
    have hst : m.current_state = st := by simpa [specSteps] using h
    exact ⟨rfl, hst, rfl, rfl⟩
  | cons s rest ih =>
    intro m st h
    simp only [specSteps] at h
    cases hstep : specStep m.symbols (flatLookup m.transitions) m.current_state s with
    | none =>
      rw [hstep] at h
      simp at h
    | some t =>
      rw [hstep] at h
      have h' : specSteps m.symbols (flatLookup m.transitions) t rest = some st := by
        simpa using h
      obtain ⟨h2, h3⟩ := advance_of_specStep m s t hstep
      have hf := advance_fields m s
      have hfl := advance_flatLookup_funext m s
      cases hadv : advance m s with
      | mk m1 r =>
        rw [hadv] at h2 h3 hf hfl
        have hr : r = none := h2
        subst hr
        have hcur : m1.current_state = t := h3
        have hsym : m1.symbols = m.symbols := hf.2.1
        have hterm : m1.terminals = m.terminals := hf.2.2.2
        have hflat : flatLookup m1.transitions = flatLookup m.transitions := hfl
        obtain ⟨i1, i2, i3, i4⟩ :=
          ih m1 st (by rw [hsym, hflat, hcur]; exact h')
        refine ⟨?_, ?_, ?_, ?_⟩
        · simpa [runAux, hadv] using i1
        · simpa [runAux, hadv] using i2
        · simp only [runAux, hadv]
          exact i3.trans hterm
        · simp only [runTraceAux, specTrace, hadv, hstep]
          rw [hcur, i4, hsym, hflat, hcur]

theorem runAux_append (a b : List String) : ∀ m : Machine,
    runAux m (a ++ b) =
      match runAux m a with
      | (m1, none) => runAux m1 b
      | (m1, some e) => (m1, some e) := by
  induction a with
  | nil => intro m; rfl
  | cons s rest ih =>
    intro m
    simp only [List.cons_append, runAux]
    cases hadv : advance m s with
    | mk m1 r =>
      cases r with
      | none => simpa using ih m1
      | some e => simp

theorem runAux_frame (seq : List String) : ∀ m : Machine,
    (runAux m seq).1.states = m.states ∧ (runAux m seq).1.symbols = m.symbols ∧
    (runAux m seq).1.initial_state = m.initial_state ∧
    (runAux m seq).1.terminals = m.terminals ∧
    flatLookup (runAux m seq).1.transitions = flatLookup m.transitions := by
  induction seq with
  | nil => intro m; exact ⟨rfl, rfl, rfl, rfl, rfl⟩
  | cons s rest ih =>
    intro m
    have hf := advance_fields m s
    have hfl := advance_flatLookup_funext m s
    cases hadv : advance m s with
    | mk m1 r =>
      rw [hadv] at hf hfl
      cases r with
      | none =>
        have ihm := ih m1
        simp only [runAux, hadv]
        exact ⟨ihm.1.trans hf.1, ihm.2.1.trans hf.2.1,
               ihm.2.2.1.trans hf.2.2.1, ihm.2.2.2.1.trans hf.2.2.2,
               ihm.2.2.2.2.trans hfl⟩
      | some e =>
        simp only [runAux, hadv]
        exact ⟨hf.1, hf.2.1, hf.2.2.1, hf.2.2.2, hfl⟩

/-- C2 (amended): when the first `advance` failure occurs during `run`, no
further symbol is consumed, but the error is PROPAGATED out of `run` — no
verdict is evaluated; the machine's `current_state` stays at the state
reached before the failing step. -/
theorem run_propagates_first_failure (m : Machine) (pre : List String) (s : String)
    (post : List String) (e : Err)
    (h1 : (runAux (reset m) pre).2 = none)
    (h2 : (advance (runAux (reset m) pre).1 s).2 = some e) :
    run m (pre ++ s :: post) =
      ((advance (runAux (reset m) pre).1 s).1, .error e) ∧
    (run m (pre ++ s :: post)).1.current_state =
      (runAux (reset m) pre).1.current_state := by
  cases hra : runAux (reset m) pre with
  | mk m1 r =>
    have hr : r = none := by rw [hra] at h1; exact h1
    subst hr
    have h2m : (advance m1 s).2 = some e := by rw [hra] at h2; exact h2
    have hrun : runAux (reset m) (pre ++ s :: post) = ((advance m1 s).1, some e) := by
      rw [runAux_append pre (s :: post) (reset m), hra]
      simp only [runAux]
      cases hadv : advance m1 s with
      | mk m2 r2 =>
        have hr2 : r2 = some e := by rw [hadv] at h2m; exact h2m
        subst hr2
        simp
    have hcur : (advance m1 s).1.current_state = m1.current_state :=
      advance_fail_current m1 s e h2m
    constructor
    · simp only [run, hrun]
    · simp only [run, hrun]
      exact hcur

theorem insertSorted_ne_nil (x : String) (l : List String) :
    insertSorted x l ≠ [] := by
  cases l with
  | nil => simp [insertSorted]
  | cons y ys =>
    simp only [insertSorted]
    split <;> simp

theorem sortStrings_eq_nil_iff (l : List String) :
    sortStrings l = [] ↔ l = [] := by
  cases l with
  | nil => simp [sortStrings]
  | cons x xs => simp [sortStrings, insertSorted_ne_nil]

theorem mem_insertSorted (a x : String) (l : List String) :
    a ∈ insertSorted x l ↔ a = x ∨ a ∈ l := by
  induction l with
  | nil => simp [insertSorted]
  | cons y ys ih =>
    simp only [insertSorted]
    split
    · simp
    · simp only [List.mem_cons, ih]
      tauto

theorem mem_sortStrings (a : String) (l : List String) :
    a ∈ sortStrings l ↔ a ∈ l := by
  induction l with
  | nil => simp [sortStrings]
  | cons x xs ih => simp [sortStrings, mem_insertSorted, ih]

theorem invalidStates_eq_nil_iff (states : List String) (f t : String) :
    invalidStates states f t = [] ↔ (f ∈ states ∧ t ∈ states) := by
  unfold invalidStates
  rw [sortStrings_eq_nil_iff]
  by_cases hft : f = t
  · subst hft
    by_cases hf : f ∈ states <;> simp [List.filter, hf]
  · by_cases hf : f ∈ states <;> by_cases ht : t ∈ states <;>
      simp [List.filter, hf, ht, hft]

theorem mem_invalidStates (states : List String) (f t x : String) :
    x ∈ invalidStates states f t ↔ ((x = f ∨ x = t) ∧ x ∉ states) := by
  unfold invalidStates
  rw [mem_sortStrings, List.mem_filter]
  by_cases hft : f = t
  · subst hft
    simp
  · simp [hft]

theorem validate_transition_none_iff (states : List String) (f t : String) :
    validate_transition states f t = none ↔ (f ∈ states ∧ t ∈ states) := by
  unfold validate_transition
  rw [← invalidStates_eq_nil_iff states f t]
  split
  · next h => simp [h]
  · next h => simp [h]

theorem validate_transition_none (states : List String) (f t : String)
    (hf : f ∈ states) (ht : t ∈ states) :
    validate_transition states f t = none :=
  (validate_transition_none_iff states f t).mpr ⟨hf, ht⟩

theorem validate_transition_some (states : List String) (f t : String)
    (h : ¬(f ∈ states ∧ t ∈ states)) :
    validate_transition states f t =
      some (.stateError (String.intercalate ", " (invalidStates states f t))) := by
  unfold validate_transition
  rw [if_neg]
  intro hnil
  exact h ((invalidStates_eq_nil_iff states f t).mp hnil)

theorem parse_shape (r0 r1 : List String) (i : String) (r2 r3 : List String)
    (trows : List (List String)) :
    parse (r0 :: r1 :: (i :: r2) :: r3 :: trows) =
      match parseTransitions r0 [] trows with
      | .ok tr => .ok { states := r0, symbols := r1, initial_state := i,
                        terminals := r3, transitions := tr,
                        current_state := i }
      | .error e => .error e := by
  cases h : parseTransitions r0 [] trows <;>
    simp [parse, getIndex, h, Except.bind, Bind.bind, pure, Except.pure]

theorem parse_first_trans_row_error (r0 : List String) (f t : String)
    (r1 : List String) (i : String) (r2 r3 : List String) (s : String)
    (rest : List (List String)) (hbad : ¬(f ∈ r0 ∧ t ∈ r0)) :
    parse (r0 :: r1 :: (i :: r2) :: r3 :: ([f, s, t]) :: rest) =
      .error (.stateError (String.intercalate ", " (invalidStates r0 f t))) := by
  rw [parse_shape]
  have hv := validate_transition_some r0 f t hbad
  simp only [parseTransitions, hv]

theorem run_fst (m : Machine) (seq : List String) :
    (run m seq).1 = (runAux (reset m) seq).1 := by
  unfold run
  cases h : runAux (reset m) seq with
  | mk m1 r => cases r <;> rfl

/-- C1 counterexample: on the docstring definition,
`run("abbaabab")` ends at state `B` with `terminated = false`, not at state
`A` with `terminated = true` as claimed. -/
theorem run_abbaabab_ends_at_B :
    (run exampleMachine (chars "abbaabab")).1.current_state = "B" ∧
    (run exampleMachine (chars "abbaabab")).2 = Except.ok false ∧
    (run exampleMachine (chars "abbaabab")).1.current_state ≠ "A" ∧
    (run exampleMachine (chars "abbaabab")).2 ≠ Except.ok true := by decide

/-- C1 (amended): `run` resets to the initial state and eagerly applies
`advance` to each symbol in order, so whenever step-by-step application of
the transition function from the initial state is defined on the whole
sequence, the final `current_state` is its result, the verdict is membership
of that result in the terminal set, and every intermediate state matches
stepwise transition application; on the docstring definition,
`run("abbaabab")` ends at state `B` with `terminated = false`. -/
theorem run_matches_stepwise_application (m : Machine) (seq : List String)
    (st : String)
    (h : specSteps m.symbols (flatLookup m.transitions) m.initial_state seq =
      some st) :
    (run m seq).1.current_state = st ∧
    (run m seq).2 = Except.ok (decide (st ∈ m.terminals)) ∧
    runTrace m seq =
      specTrace m.symbols (flatLookup m.transitions) m.initial_state seq := by
  have hres : specSteps (reset m).symbols (flatLookup (reset m).transitions)
      (reset m).current_state seq = some st := h
  obtain ⟨r1, r2, r3, r4⟩ := runAux_ok seq (reset m) st hres
  cases hra : runAux (reset m) seq with
  | mk m1 r =>
    rw [hra] at r1 r2 r3
    have hr : r = none := r1
    subst hr
    have hcur : m1.current_state = st := r2
    have hterm : m1.terminals = m.terminals := r3
    refine ⟨?_, ?_, ?_⟩
    · simp only [run, hra]
      exact hcur
    · simp only [run, hra]
      rw [hcur, hterm]
    · exact r4

/-- C1 witness: the amended statement instantiated on the docstring machine
and the sequence `abbaabab`, whose stepwise application ends at `B`. -/
theorem run_matches_stepwise_application_witness :
    specSteps exampleMachine.symbols (flatLookup exampleMachine.transitions)
      exampleMachine.initial_state (chars "abbaabab") = some "B" ∧
    ((run exampleMachine (chars "abbaabab")).1.current_state = "B" ∧
     (run exampleMachine (chars "abbaabab")).2 =
       Except.ok (decide (("B" : String) ∈ exampleMachine.terminals)) ∧
     runTrace exampleMachine (chars "abbaabab") =
       specTrace exampleMachine.symbols (flatLookup exampleMachine.transitions)
         exampleMachine.initial_state (chars "abbaabab")) :=
  ⟨by decide,
   run_matches_stepwise_application exampleMachine (chars "abbaabab") "B"
     (by decide)⟩

/-- C2 counterexample: `run("abc")` on the docstring definition does not
capture the `SymbolError` and evaluate a verdict — it returns the propagated
error (no verdict), with the state left where `"ab"` put it. -/
theorem run_abc_returns_error :
    (run exampleMachine (chars "abc")).2 = Except.error (Err.symbolError "c") ∧
    (run exampleMachine (chars "abc")).1.current_state = "B" ∧
    (∀ b : Bool, (run exampleMachine (chars "abc")).2 ≠ Except.ok b) := by
  refine ⟨by decide, by decide, ?_⟩
  intro b h
  have e : Except.error (ε := Err) (Err.symbolError "c") = Except.ok b :=
    (rfl : (run exampleMachine (chars "abc")).2 =
      Except.error (Err.symbolError "c")).symm.trans h
  exact Except.noConfusion e

/-- C2 witness: the amended statement instantiated on the docstring machine,
`pre = ["a","b"]`, failing symbol `"c"`. -/
theorem run_propagates_first_failure_witness :
    (runAux (reset exampleMachine) ["a", "b"]).2 = none ∧
    (advance (runAux (reset exampleMachine) ["a", "b"]).1 "c").2 =
      some (Err.symbolError "c") ∧
    (run exampleMachine (["a", "b"] ++ ["c"])).1.current_state =
      (runAux (reset exampleMachine) ["a", "b"]).1.current_state :=
  ⟨by decide, by decide,
   (run_propagates_first_failure exampleMachine ["a", "b"] "c" [] (Err.symbolError "c")
     (by decide) (by decide)).2⟩

/-- C3 counterexample: a failing `advance` from a state with no row in the
transition table inserts an empty inner dict for that state (the
`defaultdict` side effect of `self.transitions[from_state]`), so the
transitions mapping is not left unchanged by every failing call. -/
theorem failing_advance_mutates_transitions :
    (advance (advance growMachine "a").1 "a").2 =
      some (Err.transitionError "B -a-> None") ∧
    (advance (advance growMachine "a").1 "a").1.transitions ≠
      growMachine.transitions ∧
    (advance growMachine "a").1.transitions = growMachine.transitions := by
  decide

/-- C3 (amended): `states`, `symbols`, `initial_state` and `terminals` are
unchanged by `advance`, `reset` and `run`, and the transitions table is
unchanged as a partial function from (state, symbol) to state; only
`current_state` (and, on a failing lookup, the `defaultdict` key set of
`transitions`) is mutated. -/
theorem definition_fields_frame (m : Machine) (s : String) (seq : List String) :
    ((advance m s).1.states = m.states ∧ (advance m s).1.symbols = m.symbols ∧
     (advance m s).1.initial_state = m.initial_state ∧
     (advance m s).1.terminals = m.terminals ∧
     flatLookup (advance m s).1.transitions = flatLookup m.transitions) ∧
    ((reset m).states = m.states ∧ (reset m).symbols = m.symbols ∧
     (reset m).initial_state = m.initial_state ∧
     (reset m).terminals = m.terminals ∧
     (reset m).transitions = m.transitions ∧
     (reset m).current_state = m.initial_state) ∧
    ((run m seq).1.states = m.states ∧ (run m seq).1.symbols = m.symbols ∧
     (run m seq).1.initial_state = m.initial_state ∧
     (run m seq).1.terminals = m.terminals ∧
     flatLookup (run m seq).1.transitions = flatLookup m.transitions) := by
  refine ⟨⟨(advance_fields m s).1, (advance_fields m s).2.1,
          (advance_fields m s).2.2.1, (advance_fields m s).2.2.2,
          advance_flatLookup_funext m s⟩,
         ⟨rfl, rfl, rfl, rfl, rfl, rfl⟩, ?_⟩
  have hf := runAux_frame seq (reset m)
  rw [run_fst m seq]
  exact ⟨hf.1, hf.2.1, hf.2.2.1, hf.2.2.2.1, hf.2.2.2.2⟩

/-- C4: the loader never checks that the initial state or the terminal states
are members of the declared state set — both definitions below are accepted
without a `StateError`, contradicting the required invariant. -/
theorem parse_accepts_undeclared_initial_and_terminal :
    parse [["A"], ["a"], ["X"], ["A"]] =
      .ok { states := ["A"], symbols := ["a"], initial_state := "X",
            terminals := ["A"], transitions := [], current_state := "X" } ∧
    ("X" : String) ∉ (["A"] : List String) ∧
    parse [["A"], ["a"], ["A"], ["Y"]] =
      .ok { states := ["A"], symbols := ["a"], initial_state := "A",
            terminals := ["Y"], transitions := [], current_state := "A" } ∧
    ("Y" : String) ∉ (["A"] : List String) := by decide

/-- C5 counterexample: a row 2 with two fields is structurally malformed per
the claim, yet `parse` accepts it without any error, silently using the first
field as the initial state. -/
theorem parse_accepts_multifield_initial_row :
    parse [["A"], ["a"], ["A", "B"], ["A"]] =
      .ok { states := ["A"], symbols := ["a"], initial_state := "A",
            terminals := ["A"], transitions := [], current_state := "A" } := by
  decide

/-- C5 (amended): structurally malformed rows fail, but with `IndexError`
(fewer than 4 rows, or an empty row 2) or `ValueError` (a transition row
without exactly three fields), never a dedicated `DefinitionError`; a row 2
with extra fields is accepted; and transition-row arity is checked per row,
interleaved with state validation, not before it (a bad state in an earlier
row wins over a malformed later row). -/
theorem parse_structural_failures (records : List (List String)) :
    (records.length < 4 → parse records = .error Err.indexError) ∧
    parse [["A"], ["a"], [], ["A"]] = .error Err.indexError ∧
    parse [["A"], ["a"], ["A"], ["A"], ["A", "a"]] = .error Err.valueError ∧
    parse [["A"], ["a"], ["A"], ["A"], ["B", "a", "B"], ["A", "a"]] =
      .error (Err.stateError "B") := by
  refine ⟨?_, by decide, by decide, by decide⟩
  intro h
  rcases records with _ | ⟨a, _ | ⟨b, _ | ⟨c, _ | ⟨d, rest⟩⟩⟩⟩
  · rfl
  · rfl
  · rfl
  · cases c with
    | nil => rfl
    | cons x xs => rfl
  · exfalso
    simp only [List.length_cons] at h
    omega

/-- C5 witness: the amended statement instantiated at the empty row set. -/
theorem parse_structural_failures_witness :
    (([] : List (List String)).length < 4) ∧
    parse ([] : List (List String)) = .error Err.indexError :=
  ⟨by decide, (parse_structural_failures []).1 (by decide)⟩

/-- C6: a failing `advance` (`SymbolError` or `TransitionError`) leaves
`current_state` exactly as it was before the call. -/
theorem advance_failure_preserves_current_state (m : Machine) (s : String)
    (e : Err) (h : (advance m s).2 = some e) :
    (advance m s).1.current_state = m.current_state :=
  advance_fail_current m s e h

/-- C6 witness: a `SymbolError` on the docstring machine leaves the state. -/
theorem advance_failure_preserves_current_state_witness :
    (advance exampleMachine "z").2 = some (Err.symbolError "z") ∧
    (advance exampleMachine "z").1.current_state =
      exampleMachine.current_state :=
  ⟨by decide,
   advance_failure_preserves_current_state exampleMachine "z"
     (Err.symbolError "z") (by decide)⟩

/-- C7: `advance` fails with `SymbolError(symbol)` exactly when the symbol is
outside the declared alphabet, and in that case the machine is returned
entirely unchanged — the check precedes any lookup or mutation. -/
theorem advance_symbol_error_iff (m : Machine) (s : String) :
    ((advance m s).2 = some (Err.symbolError s) ↔ s ∉ m.symbols) ∧
    (s ∉ m.symbols → advance m s = (m, some (Err.symbolError s))) := by
  by_cases hs : s ∈ m.symbols
  · refine ⟨⟨?_, fun hn => absurd hs hn⟩, fun hn => absurd hs hn⟩
    intro h
    exfalso
    rw [advance_eq, if_neg (not_not_intro hs)] at h
    cases heq : flatLookup m.transitions m.current_state s with
    | some t =>
      rw [heq] at h
      by_cases ht : t = "" <;> simp [ht] at h
    | none =>
      rw [heq] at h
      simp at h
  · refine ⟨?_, fun _ => advance_notin_eq m s hs⟩
    rw [advance_notin_eq m s hs]
    simp [hs]

/-- C7 witness: the symbol `z` is outside the docstring machine's alphabet
and `advance` returns the machine unchanged with `SymbolError("z")`. -/
theorem advance_symbol_error_iff_witness :
    ("z" : String) ∉ exampleMachine.symbols ∧
    advance exampleMachine "z" = (exampleMachine, some (Err.symbolError "z")) :=
  ⟨by decide, (advance_symbol_error_iff exampleMachine "z").2 (by decide)⟩

/-- C8: `validate_transition` succeeds exactly when both states are declared;
when it fails, the `StateError` message is the comma-joined sorted list of
the offending states of that row, and that list contains a state exactly when
it is the row's from-state or to-state and is undeclared (both checked, not
just the first); a row set whose first transition row offends makes `parse`
fail with exactly that `StateError`. -/
theorem validate_transition_names_all_offenders (states : List String)
    (f t : String) :
    (validate_transition states f t = none ↔ (f ∈ states ∧ t ∈ states)) ∧
    (∀ x, x ∈ invalidStates states f t ↔ ((x = f ∨ x = t) ∧ x ∉ states)) ∧
    (¬(f ∈ states ∧ t ∈ states) →
      validate_transition states f t =
        some (.stateError (String.intercalate ", " (invalidStates states f t)))) ∧
    (∀ (r1 : List String) (i : String) (r2 r3 : List String) (s : String)
       (rest : List (List String)), ¬(f ∈ states ∧ t ∈ states) →
      parse (states :: r1 :: (i :: r2) :: r3 :: ([f, s, t]) :: rest) =
        .error (.stateError (String.intercalate ", " (invalidStates states f t)))) :=
  ⟨validate_transition_none_iff states f t,
   fun x => mem_invalidStates states f t x,
   validate_transition_some states f t,
   fun r1 i r2 r3 s rest hbad =>
     parse_first_trans_row_error states f t r1 i r2 r3 s rest hbad⟩

/-- C8 witness: declared states `{A,B,C}` and transition row `D,a,E` — the
`StateError` names both `D` and `E`. -/
theorem validate_transition_names_all_offenders_witness :
    (¬(("D" : String) ∈ (["A", "B", "C"] : List String) ∧
       ("E" : String) ∈ (["A", "B", "C"] : List String))) ∧
    parse [["A", "B", "C"], ["a"], ["A"], ["A"], ["D", "a", "E"]] =
      .error (.stateError "D, E") := by
  refine ⟨by decide, ?_⟩
  have h := (validate_transition_names_all_offenders ["A", "B", "C"] "D" "E").2.2.2
    ["a"] "A" [] ["A"] "a" [] (by decide)
  have e : String.intercalate ", " (invalidStates ["A", "B", "C"] "D" "E") =
      "D, E" := by decide
  rw [e] at h
  exact h

/-- C9: when the table maps `(current_state, symbol)` to the declared state
`""`, the looked-up value is falsy, so `advance` raises `TransitionError` and
does not transition. -/
theorem advance_empty_string_target_fails (m : Machine) (s : String)
    (hs : s ∈ m.symbols) (hd : ("" : String) ∈ m.states)
    (h : flatLookup m.transitions m.current_state s = some "") :
    (advance m s).2 =
      some (.transitionError (formatTransition m.current_state s (some ""))) ∧
    (advance m s).1.current_state = m.current_state := by
  rw [advance_eq, if_neg (not_not_intro hs), h]
  simp

/-- C9 witness: a machine declaring the state `""` and mapping `(A, a)` to it;
`advance "a"` raises `TransitionError` and stays at `A`. -/
theorem advance_empty_string_target_fails_witness :
    (("a" : String) ∈ emptyTargetMachine.symbols ∧
     ("" : String) ∈ emptyTargetMachine.states ∧
     flatLookup emptyTargetMachine.transitions emptyTargetMachine.current_state
       "a" = some "") ∧
    ((advance emptyTargetMachine "a").2 =
      some (.transitionError
        (formatTransition emptyTargetMachine.current_state "a" (some ""))) ∧
     (advance emptyTargetMachine "a").1.current_state =
       emptyTargetMachine.current_state) :=
  ⟨⟨by decide, by decide, by decide⟩,
   advance_empty_string_target_fails emptyTargetMachine "a" (by decide)
     (by decide) (by decide)⟩

/-- C10: the loader never validates the symbol field of a transition row:
with both states declared, the row is accepted whatever its symbol — in
particular a symbol outside the declared alphabet — and the mapping is
stored in the transitions table. -/
theorem parse_accepts_undeclared_transition_symbol (r0 r1 : List String)
    (i : String) (r2 r3 : List String) (f s t : String)
    (hf : f ∈ r0) (ht : t ∈ r0) (hs : s ∉ r1) :
    parse [r0, r1, i :: r2, r3, [f, s, t]] =
      .ok { states := r0, symbols := r1, initial_state := i, terminals := r3,
            transitions := [(f, [(s, t)])], current_state := i } ∧
    flatLookup [(f, [(s, t)])] f s = some t := by
  constructor
  · rw [parse_shape]
    have hv := validate_transition_none r0 f t hf ht
    simp [parseTransitions, hv, ddAccess, dictGet?, dictSet]
  · simp [flatLookup, dictGet?]

/-- C10 witness: declared symbols `{a}`, transition row `A,z,A` — accepted
and stored. -/
theorem parse_accepts_undeclared_transition_symbol_witness :
    (("A" : String) ∈ (["A"] : List String) ∧
     ("A" : String) ∈ (["A"] : List String) ∧
     ("z" : String) ∉ (["a"] : List String)) ∧
    (parse [["A"], ["a"], ["A"], ["A"], ["A", "z", "A"]] =
      .ok { states := ["A"], symbols := ["a"], initial_state := "A",
            terminals := ["A"], transitions := [("A", [("z", "A")])],
            current_state := "A" } ∧
     flatLookup [("A", [("z", "A")])] "A" "z" = some "A") :=
  ⟨⟨by decide, by decide, by decide⟩,
   parse_accepts_undeclared_transition_symbol ["A"] ["a"] "A" [] ["A"] "A" "z" "A"
     (by decide) (by decide) (by decide)⟩

end FSM
